import Mathlib

/-!
# Verification of the Stella `RewindManager` rewind/unwind history core

Shallow embedding of `src/common/RewindManager.cxx` / `RewindManager.hxx`.

The store is `std::list<RewindPtr>` with `push_back` appending the newest
entry at the tail; we model it as a `List RewindState` in oldest-first
order.  The cursor `myCurrentIt` is modelled as a plain index
(`currentPos`), with `currentPos = length` standing for `end()`.
Machine integers (`uInt64`, `uInt32`) are modelled as `Nat` with explicit
`% 2^64` / `% 2^32` where the C++ performs wrapping arithmetic.

The external collaborators (`StateManager`, `TIA`, `OSystem`) are not part
of the sources; calls into them appear as parameters (serialization
success flags, current cycle/frame counters, scanline count) and, at the
system level, as the clock component of `EmuSystem`.
-/

/-- Timing/capacity constants from `RewindManager.hxx` lines 93-98.
Note `FRAME_CYCLES = 76 * 262 * 60` is the cycle count of 60 frames
(about one second of NTSC video), despite its name. -/
def FRAME_CYCLES : Nat := 76 * 262 * 60

/-- Number of guaranteed single cycle rewinds (`SINGLE_STEPS = 60`). -/
def SINGLE_STEPS : Nat := 60

/-- Number of guaranteed ~60 frames rewinds (`SECOND_STEPS = 10`). -/
def SECOND_STEPS : Nat := 10

/-- Threshold for deleting same step entries (`MERGE_COUNT = 4`). -/
def MERGE_COUNT : Nat := 4

/-- Maximum number of states to save:
`SINGLE_STEPS + (SECOND_STEPS - MERGE_COUNT) + 46 = 112`. -/
def MAX_SIZE : Nat := SINGLE_STEPS + (SECOND_STEPS - MERGE_COUNT) + 46

/-- `uInt64` subtraction `a - b` with two's-complement wraparound, on the
represented values `a % 2^64` and `b % 2^64`. -/
def u64sub (a b : Nat) : Nat :=
  ((a % 2 ^ 64) + (2 ^ 64 - b % 2 ^ 64)) % 2 ^ 64

/-- One entry of `myStateList` (`struct RewindState`, RewindManager.hxx
lines 103-107): the serialized payload plus the TIA cycle and frame
counters at capture time. -/
structure RewindState where
  data : List Nat
  cycles : Nat
  frames : Nat
deriving DecidableEq, Repr

/-- The manager's mutable state: `myStateList` (oldest first; `push_back`
appends at the tail) and `myCurrentIt` as an index, `currentPos = length`
meaning `end()`.  The dead bookkeeping fields (`myStateCount`,
`myLastFrames`, `myFrameLst`) never influence the store and are omitted. -/
structure RewindManager where
  stateList : List RewindState
  currentPos : Nat
deriving DecidableEq, Repr

/-- `myStateList.erase(++myStateList.begin())`: remove the second-oldest
entry (RewindManager.cxx lines 178-181).  On a list shorter than two the
C++ erase would be undefined behavior; we leave such a list unchanged. -/
def eraseSecond : List RewindState → List RewindState
  | a :: _ :: t => a :: t
  | l => l

/-- The `do { ... } while(++rit != rend())` scan of `compressStates`
(RewindManager.cxx lines 157-175).

`out` is the already-passed part of the list in oldest-first order; its
head is the element `*prevRit` adjacent (on the newer side) to the
current element, and `out[1]` is the element `erase(ritErase.base())`
removes in the merge branch.  `rest` holds the elements the reverse
iterator has yet to visit, newest-first.  Returns the surviving list
(oldest first) and the final `stepCount`.

The empty-`out` case is unreachable from `compressStates` on a store of
`MAX_SIZE` entries (the C++ would be undefined behavior on a store with
at most `SINGLE_STEPS` entries). -/
def compressScan : List RewindState → List RewindState → Nat → Nat →
    List RewindState × Nat
  | out, [], _lastStep, stepCount => (out, stepCount)
  | [], _ :: _, _lastStep, stepCount => ([], stepCount)
  | prev :: outT, x :: rest, lastStep, stepCount =>
    let thisStep := (u64sub prev.cycles x.cycles) % 2 ^ 32
    if thisStep = lastStep then
      compressScan (x :: prev :: outT) rest lastStep (stepCount + 1)
    else if MERGE_COUNT ≤ stepCount then
      compressScan (x :: prev :: outT.tail) rest thisStep 2
    else
      compressScan (x :: prev :: outT) rest thisStep 1

/-- `RewindManager::compressStates` (RewindManager.cxx lines 149-184):
skip the `SINGLE_STEPS` newest entries, scan the rest newest-to-oldest
merging runs of equal cycle steps, then erase the second-oldest entry
when the final run was long enough or the list is still at `MAX_SIZE`. -/
def compressStates (store : List RewindState) : List RewindState :=
  let r := store.reverse
  let p := compressScan (r.take SINGLE_STEPS).reverse (r.drop SINGLE_STEPS) 0 0
  let store2 := p.1
  if MERGE_COUNT ≤ p.2 ∨ store2.length = MAX_SIZE then eraseSecond store2
  else store2

/-- `RewindManager::addState` (RewindManager.cxx lines 38-81).
`okSave` / `okDisplay` are the results of the collaborator calls
`myStateManager.saveState(s)` and `tia().saveDisplay(s)`; `payload` is
the serialized buffer they produce; `nowCycles` / `nowFrames` are
`tia().cycles()` / `tia().frameCount()`.  On success: pop back every
entry from the cursor to the tail, compress when at `MAX_SIZE`, append
the new snapshot and set the cursor to `end()`. -/
def addState (m : RewindManager) (okSave okDisplay : Bool)
    (payload : List Nat) (nowCycles nowFrames : Nat) :
    RewindManager × Bool :=
  if okSave && okDisplay then
    let l1 := m.stateList.take m.currentPos
    let l2 := if l1.length = MAX_SIZE then compressStates l1 else l1
    let l3 := l2 ++ [⟨payload, nowCycles, nowFrames⟩]
    (⟨l3, l3.length⟩, true)
  else
    (m, false)

/-- The `while(emulation && cycles - (*rit)->cycles < FRAME_CYCLES * 3/4)
rit++` walk of `rewindState` (RewindManager.cxx lines 89-90) over the
store in newest-first order.  The loop has no `rend()` check: when every
entry is closer than the threshold the C++ dereferences past the end
(undefined behavior), modelled here as `none`. -/
def coarseWalk (now : Nat) : List RewindState → Option RewindState
  | [] => none
  | x :: rest =>
    if u64sub now x.cycles < FRAME_CYCLES * 3 / 4 then coarseWalk now rest
    else some x

/-- The snapshot `rewindState` restores: `rbegin()` when `emulation` is
false, otherwise the first entry of the coarse walk. -/
def rewindTarget (emulation : Bool) (now : Nat)
    (store : List RewindState) : Option RewindState :=
  if emulation then coarseWalk now store.reverse else store.reverse.head?

/-- `RewindManager::rewindState` (RewindManager.cxx lines 84-105).
Returns the manager (the store and `myCurrentIt` are never modified),
the boolean result, and the snapshot whose payload is handed to
`loadState` / `loadDisplay` (`none` models the out-of-bounds coarse
walk).  `now` is `tia().cycles()` at the time of the call. -/
def rewindState (m : RewindManager) (emulation : Bool) (now : Nat) :
    RewindManager × Bool × Option RewindState :=
  if 0 < m.stateList.length then
    (m, true, rewindTarget emulation now m.stateList)
  else
    (m, false, none)

/-- `RewindManager::unwindState` (RewindManager.cxx lines 108-120): the
body is empty apart from the size test; it reports success on a
non-empty store and performs no state transition. -/
def unwindState (m : RewindManager) (_debugger : Bool) :
    RewindManager × Bool :=
  if 0 < m.stateList.length then (m, true) else (m, false)

/-- `RewindManager::clear` (RewindManager.hxx line 88):
`myStateList.clear()`; `myCurrentIt`, being `end()`, stays `end()`. -/
def clearStates (_m : RewindManager) : RewindManager :=
  ⟨[], 0⟩

/-- `RewindManager::getMessage` (RewindManager.cxx lines 123-146).
`now` is `tia().cycles()`, `scanlines` is `tia().scanlinesLastFrame()`,
`cyclesTo` the target snapshot's cycle counter.  `diff` is `uInt64`, so
the `diff < 0` test can never succeed and the `Unwind` branch (with the
wrapped negation `2^64 - diff`) is dead code; it is kept verbatim. -/
def getMessage (now scanlines cyclesTo : Nat) : String :=
  let diff0 := u64sub now cyclesTo
  let dir := if diff0 < 0 then "Unwind " else "Rewind "
  let diff := if diff0 < 0 then (2 ^ 64 - diff0 % 2 ^ 64) % 2 ^ 64 else diff0
  let body :=
    if diff < 76 then
      toString diff ++ " cycle(s)"
    else if diff < 76 * scanlines then
      toString (diff / 76) ++ " scanline(s)"
    else if diff < 76 * 262 * 60 then
      toString (diff / 76 / 262 / 60) ++ " frame(s)"
    else if diff < 76 * 262 * 60 * 60 then
      toString (diff / 76 / 262 / 60 / 60) ++ " second(s)"
    else
      toString (diff / 76 / 262 / 60 / 60 / 60) ++ " minute(s)"
  dir ++ body

/-- Modelled from the spec: the surrounding system.  The collaborators
(`TIA` clock and `StateManager`, not part of the sources) provide a
monotonically advancing cycle/frame clock while emulation runs, and
restoring a snapshot loads the collaborator state, which sets the
emulated clock back to the snapshot's cycle/frame counters. -/
structure EmuSystem where
  mgr : RewindManager
  clock : Nat
  frames : Nat
deriving DecidableEq, Repr

/-- One interaction with the rewind manager: the emulation advancing the
clock between calls, or one of its public operations. -/
inductive Op where
  | advance (dc df : Nat)
  | add (okSave okDisplay : Bool) (payload : List Nat)
  | rewind (emulation : Bool)
  | unwind (emulation : Bool)
  | clear
deriving DecidableEq, Repr

/-- Apply one operation.  `rewind` restoring a snapshot sets the clock to
that snapshot's counters (modelled from the spec: `loadState` /
`loadDisplay` restore the collaborators' state); the store and cursor
are exactly those computed by the embedded `RewindManager` code. -/
def applyOp (s : EmuSystem) (op : Op) : EmuSystem :=
  match op with
  | .advance dc df => ⟨s.mgr, s.clock + dc, s.frames + df⟩
  | .add ok1 ok2 payload =>
    ⟨(addState s.mgr ok1 ok2 payload s.clock s.frames).1, s.clock, s.frames⟩
  | .rewind e =>
    match (rewindState s.mgr e s.clock).2.2 with
    | some t => ⟨(rewindState s.mgr e s.clock).1, t.cycles, t.frames⟩
    | none => ⟨(rewindState s.mgr e s.clock).1, s.clock, s.frames⟩
  | .unwind e => ⟨(unwindState s.mgr e).1, s.clock, s.frames⟩
  | .clear => ⟨clearStates s.mgr, s.clock, s.frames⟩

/-- A freshly constructed manager (constructor, RewindManager.cxx lines
28-35): empty list, `myCurrentIt = begin() = end()`. -/
def initSystem (c f : Nat) : EmuSystem :=
  ⟨⟨[], 0⟩, c, f⟩

/-- Run a sequence of operations from a given system state. -/
def runOps (s : EmuSystem) (ops : List Op) : EmuSystem :=
  ops.foldl applyOp s

/-- A store of `n` snapshots with uniform 60-cycle spacing: entry `i` has
cycle counter `60 * (i + 1)` (Scenario C of the spec). -/
def uniformStore (n : Nat) : List RewindState :=
  (List.range n).map fun i => ⟨[], 60 * (i + 1), i⟩

/-- Scenario B of the spec: insert snapshots with cycle counts
100, 200, 300 (the clock advancing 100 cycles between captures). -/
def ops123 : List Op :=
  [.add true true [], .advance 100 1, .add true true [],
   .advance 100 1, .add true true []]

/-- The system after Scenario B's three captures: store cycles
`[100, 200, 300]`, cursor at the tail, clock at 300. -/
def sys123 : EmuSystem :=
  runOps (initSystem 100 1) ops123

/-- Capture at cycle 100, run for 999900 cycles, capture at 1000000,
coarse rewind (which restores the snapshot at cycle 100, setting the
clock back), run 50 more cycles, capture again. -/
def opsRewindCapture : List Op :=
  [.add true true [], .advance 999900 9, .add true true [],
   .rewind true, .advance 50 0, .add true true []]

/-! ## Basic facts about the embedded operations -/

/-- `MAX_SIZE` evaluates to 112. -/
lemma max_size_val : MAX_SIZE = 112 := rfl

/-- `SINGLE_STEPS` evaluates to 60. -/
lemma single_steps_val : SINGLE_STEPS = 60 := rfl

/-- `rewindState` never modifies the manager: the store and the cursor it
returns are the ones it was given. -/
lemma rewindState_fst (m : RewindManager) (e : Bool) (now : Nat) :
    (rewindState m e now).1 = m := by
  unfold rewindState
  split <;> rfl

/-- `unwindState` never modifies the manager. -/
lemma unwindState_fst (m : RewindManager) (e : Bool) :
    (unwindState m e).1 = m := by
  unfold unwindState
  split <;> rfl

/-- The coarse walk returns the first element (in walk order) whose
cycle-distance from `now` reaches the threshold, and `none` exactly when
no element does. -/
lemma coarseWalk_spec (now : Nat) (l : List RewindState) :
    (coarseWalk now l = none ∧
      ∀ x ∈ l, u64sub now x.cycles < FRAME_CYCLES * 3 / 4) ∨
    (∃ t pre post, coarseWalk now l = some t ∧ l = pre ++ t :: post ∧
      (∀ x ∈ pre, u64sub now x.cycles < FRAME_CYCLES * 3 / 4) ∧
      FRAME_CYCLES * 3 / 4 ≤ u64sub now t.cycles) := by
  induction l with
  | nil => exact Or.inl ⟨rfl, by simp⟩
  | cons x l ih =>
    by_cases hx : u64sub now x.cycles < FRAME_CYCLES * 3 / 4
    · rcases ih with ⟨h1, h2⟩ | ⟨t, pre, post, h1, h2, h3, h4⟩
      · refine Or.inl ⟨?_, ?_⟩
        · simp [coarseWalk, if_pos hx, h1]
        · intro y hy
          rcases List.mem_cons.mp hy with rfl | hy'
          · exact hx
          · exact h2 y hy'
      · refine Or.inr ⟨t, x :: pre, post, ?_, ?_, ?_, h4⟩
        · simp [coarseWalk, if_pos hx, h1]
        · simp [h2]
        · intro y hy
          rcases List.mem_cons.mp hy with rfl | hy'
          · exact hx
          · exact h3 y hy'
    · exact Or.inr ⟨x, [], l, by simp [coarseWalk, if_neg hx],
        by simp, by simp, Nat.le_of_not_lt hx⟩

/-! ## Claims C1 and C2: the two rewind modes -/

/-- C1 (counterexample): after inserting snapshots with cycle counts
100, 200, 300 the fine rewind restores the entry with cycles 300, not
the entry with cycles 200 as the claim states, and it leaves the cursor
where it was instead of moving it back one entry. -/
theorem c1_counterexample :
    (rewindState sys123.mgr false sys123.clock).2.2.map (·.cycles) = some 300 ∧
    (rewindState sys123.mgr false sys123.clock).2.2.map (·.cycles) ≠ some 200 ∧
    (rewindState sys123.mgr false sys123.clock).1.currentPos = 3 := by
  refine ⟨by decide, by decide, by decide⟩

/-- C1 (amended): a fine-mode rewind (`rewindState` with
`emulation = false`) restores the newest stored snapshot (the entry just
before the tail cursor) and modifies neither the store nor the cursor;
in particular, from cycle counts 100, 200, 300 it restores the entry
with cycles 300. -/
theorem c1_fine_rewind_newest (m : RewindManager) (now : Nat) :
    (rewindState m false now).1 = m ∧
    (rewindState m false now).2.2 = m.stateList.getLast? := by
  refine ⟨rewindState_fst m false now, ?_⟩
  by_cases h : 0 < m.stateList.length
  · simp [rewindState, if_pos h, rewindTarget, List.head?_reverse]
  · have hnil : m.stateList = [] := List.length_eq_zero.mp (by omega)
    simp [rewindState, hnil]

/-- C2 (counterexample): at the claim's own input — entries with cycles
100, 200, 300 and the present at 300 — the coarse rewind restores
nothing at all (the walk runs past the oldest entry, undefined behavior
in the C++), rather than the entry with cycles 200. -/
theorem c2_counterexample :
    (rewindState sys123.mgr true sys123.clock).2.2 = none := by
  decide

/-- C2 (amended): a coarse-mode rewind on a non-empty store leaves the
manager unchanged and restores the first entry, walking newest to
oldest, whose cycle-distance from the present is at least
`FRAME_CYCLES * 3 / 4` = 896040 cycles (three quarters of one second of
video, i.e. of 60 frames — not of a single frame); when no entry is that
far in the past the walk runs past the oldest entry (undefined behavior,
modelled as `none`) instead of restoring the oldest entry. -/
theorem c2_coarse_rewind_threshold (m : RewindManager) (now : Nat) :
    (rewindState m true now).1 = m ∧
    (((rewindState m true now).2.2 = none ∧
        ∀ x ∈ m.stateList, u64sub now x.cycles < FRAME_CYCLES * 3 / 4) ∨
      (∃ t pre post, (rewindState m true now).2.2 = some t ∧
        m.stateList.reverse = pre ++ t :: post ∧
        (∀ x ∈ pre, u64sub now x.cycles < FRAME_CYCLES * 3 / 4) ∧
        FRAME_CYCLES * 3 / 4 ≤ u64sub now t.cycles)) := by
  refine ⟨rewindState_fst m true now, ?_⟩
  by_cases h : 0 < m.stateList.length
  · have htgt : (rewindState m true now).2.2 = coarseWalk now m.stateList.reverse := by
      simp [rewindState, if_pos h, rewindTarget]
    rcases coarseWalk_spec now m.stateList.reverse with ⟨h1, h2⟩ | ⟨t, pre, post, h1, h2, h3, h4⟩
    · refine Or.inl ⟨htgt.trans h1, ?_⟩
      intro x hx
      exact h2 x (List.mem_reverse.mpr hx)
    · exact Or.inr ⟨t, pre, post, htgt.trans h1, h2, h3, h4⟩
  · have hnil : m.stateList = [] := List.length_eq_zero.mp (by omega)
    refine Or.inl ⟨?_, ?_⟩
    · simp [rewindState, hnil]
    · simp [hnil]

/-! ## The compaction scan: length bounds and stability of the newest
entries -/

/-- `MERGE_COUNT` evaluates to 4. -/
lemma merge_count_val : MERGE_COUNT = 4 := rfl

/-- Each scan step adds at most one element to the surviving list: the
result is never longer than the whole store. -/
lemma scanLen_le : ∀ (rest out : List RewindState) (ls cnt : Nat),
    (compressScan out rest ls cnt).1.length ≤ out.length + rest.length := by
  intro rest
  induction rest with
  | nil => intro out ls cnt; simp [compressScan]
  | cons x rest ih =>
    intro out ls cnt
    cases out with
    | nil => simp [compressScan]
    | cons prev outT =>
      simp only [compressScan]
      by_cases hstep : (u64sub prev.cycles x.cycles) % 2 ^ 32 = ls
      · rw [if_pos hstep]
        have h := ih (x :: prev :: outT) ls (cnt + 1)
        simp only [List.length_cons] at h ⊢
        omega
      · rw [if_neg hstep]
        by_cases hmc : MERGE_COUNT ≤ cnt
        · rw [if_pos hmc]
          have h := ih (x :: prev :: outT.tail)
            ((u64sub prev.cycles x.cycles) % 2 ^ 32) 2
          have ht : outT.tail.length = outT.length - 1 := List.length_tail outT
          simp only [List.length_cons] at h ⊢
          omega
        · rw [if_neg hmc]
          have h := ih (x :: prev :: outT)
            ((u64sub prev.cycles x.cycles) % 2 ^ 32) 1
          simp only [List.length_cons] at h ⊢
          omega

/-- As long as the run counter never exceeds the slack over the skipped
region (`58 + cnt ≤ out.length`), the scan's result keeps at least
`min (store size) 62` elements: a merge erasure can only happen once the
passed region holds at least 62 entries, and the passed region never
shrinks. -/
lemma scan_min62 : ∀ (rest out : List RewindState) (ls cnt : Nat),
    58 + cnt ≤ out.length →
    min (out.length + rest.length) 62 ≤ (compressScan out rest ls cnt).1.length := by
  intro rest
  induction rest with
  | nil =>
    intro out ls cnt _
    simp only [compressScan, List.length_nil]
    omega
  | cons x rest ih =>
    intro out ls cnt hc
    cases out with
    | nil => simp only [List.length_nil] at hc; omega
    | cons prev outT =>
      simp only [compressScan]
      by_cases hstep : (u64sub prev.cycles x.cycles) % 2 ^ 32 = ls
      · rw [if_pos hstep]
        have h := ih (x :: prev :: outT) ls (cnt + 1)
          (by simp only [List.length_cons] at hc ⊢; omega)
        simp only [List.length_cons] at h ⊢
        omega
      · rw [if_neg hstep]
        by_cases hmc : MERGE_COUNT ≤ cnt
        · rw [if_pos hmc]
          rw [merge_count_val] at hmc
          have h62 : 62 ≤ outT.length + 1 := by
            simp only [List.length_cons] at hc; omega
          have ht : outT.tail.length = outT.length - 1 := List.length_tail outT
          have h := ih (x :: prev :: outT.tail)
            ((u64sub prev.cycles x.cycles) % 2 ^ 32) 2
            (by simp only [List.length_cons]; omega)
          simp only [List.length_cons] at h ⊢
          omega
        · rw [if_neg hmc]
          have h := ih (x :: prev :: outT)
            ((u64sub prev.cycles x.cycles) % 2 ^ 32) 1
            (by simp only [List.length_cons] at hc ⊢; omega)
          simp only [List.length_cons] at h ⊢
          omega

/-- The scan never touches the newest 60 entries: under the same counter
slack, the last 60 elements of the surviving list are the last 60
elements of the initial passed region. -/
lemma scan_tail60 : ∀ (rest out : List RewindState) (ls cnt : Nat),
    60 ≤ out.length → 58 + cnt ≤ out.length →
    (compressScan out rest ls cnt).1.reverse.take 60 = out.reverse.take 60 := by
  intro rest
  induction rest with
  | nil => intro out ls cnt _ _; simp [compressScan]
  | cons x rest ih =>
    intro out ls cnt h60 hc
    cases out with
    | nil => simp only [List.length_nil] at h60; omega
    | cons prev outT =>
      simp only [compressScan]
      by_cases hstep : (u64sub prev.cycles x.cycles) % 2 ^ 32 = ls
      · rw [if_pos hstep]
        rw [ih (x :: prev :: outT) ls (cnt + 1)
          (by simp only [List.length_cons] at h60 ⊢; omega)
          (by simp only [List.length_cons] at hc ⊢; omega)]
        rw [List.reverse_cons x (prev :: outT)]
        rw [List.take_append_of_le_length
          (by simp only [List.length_reverse, List.length_cons] at h60 ⊢; omega)]
      · rw [if_neg hstep]
        by_cases hmc : MERGE_COUNT ≤ cnt
        · rw [if_pos hmc]
          rw [merge_count_val] at hmc
          have h62 : 62 ≤ outT.length + 1 := by
            simp only [List.length_cons] at hc; omega
          cases outT with
          | nil => simp only [List.length_nil] at h62; omega
          | cons h0 t =>
            have h60t : 60 ≤ t.length := by
              simp only [List.length_cons] at h62; omega
            rw [show (h0 :: t).tail = t from rfl]
            rw [ih (x :: prev :: t) ((u64sub prev.cycles x.cycles) % 2 ^ 32) 2
              (by simp only [List.length_cons]; omega)
              (by simp only [List.length_cons]; omega)]
            rw [List.reverse_cons x (prev :: t)]
            rw [List.take_append_of_le_length
              (by simp only [List.length_reverse, List.length_cons]; omega)]
            rw [List.reverse_cons prev t]
            rw [List.take_append_of_le_length
              (by simp only [List.length_reverse]; omega)]
            rw [List.reverse_cons prev (h0 :: t)]
            rw [List.take_append_of_le_length
              (by simp only [List.length_reverse, List.length_cons]; omega)]
            rw [List.reverse_cons h0 t]
            rw [List.take_append_of_le_length
              (by simp only [List.length_reverse]; omega)]
        · rw [if_neg hmc]
          rw [ih (x :: prev :: outT) ((u64sub prev.cycles x.cycles) % 2 ^ 32) 1
            (by simp only [List.length_cons] at h60 ⊢; omega)
            (by simp only [List.length_cons] at hc ⊢; omega)]
          rw [List.reverse_cons x (prev :: outT)]
          rw [List.take_append_of_le_length
            (by simp only [List.length_reverse, List.length_cons] at h60 ⊢; omega)]

/-- Erasing the second-oldest entry of a list that fits in the store
leaves it strictly below `MAX_SIZE`. -/
lemma eraseSecond_length_lt : ∀ l : List RewindState,
    l.length ≤ MAX_SIZE → (eraseSecond l).length < MAX_SIZE := by
  intro l h
  cases l with
  | nil =>
    rw [show eraseSecond ([] : List RewindState) = [] from rfl, max_size_val]
    simp
  | cons a l' =>
    cases l' with
    | nil =>
      rw [show eraseSecond [a] = [a] from rfl, max_size_val]
      simp
    | cons b t =>
      rw [show eraseSecond (a :: b :: t) = a :: t from rfl]
      rw [max_size_val] at *
      simp only [List.length_cons] at h ⊢
      omega

/-- Erasing the second-oldest entry of a list with at least 62 elements
does not change the newest 60 entries. -/
lemma eraseSecond_tail60 : ∀ l : List RewindState, 62 ≤ l.length →
    (eraseSecond l).reverse.take 60 = l.reverse.take 60 := by
  intro l h
  cases l with
  | nil => simp only [List.length_nil] at h; omega
  | cons a l' =>
    cases l' with
    | nil => simp only [List.length_cons, List.length_nil] at h; omega
    | cons b t =>
      have h60 : 60 ≤ t.length := by simp only [List.length_cons] at h; omega
      rw [show eraseSecond (a :: b :: t) = a :: t from rfl]
      rw [List.reverse_cons a t]
      rw [List.take_append_of_le_length (by simp only [List.length_reverse]; omega)]
      rw [List.reverse_cons a (b :: t)]
      rw [List.take_append_of_le_length
        (by simp only [List.length_reverse, List.length_cons]; omega)]
      rw [List.reverse_cons b t]
      rw [List.take_append_of_le_length (by simp only [List.length_reverse]; omega)]

/-- `compressStates` on a full store always frees at least one slot. -/
lemma compress_length_lt (s : List RewindState) (h : s.length = MAX_SIZE) :
    (compressStates s).length < MAX_SIZE := by
  simp only [compressStates]
  have hlen : (compressScan (s.reverse.take SINGLE_STEPS).reverse
      (s.reverse.drop SINGLE_STEPS) 0 0).1.length ≤ MAX_SIZE := by
    have h1 := scanLen_le (s.reverse.drop SINGLE_STEPS)
      (s.reverse.take SINGLE_STEPS).reverse 0 0
    have h2 : ((s.reverse.take SINGLE_STEPS).reverse).length +
        (s.reverse.drop SINGLE_STEPS).length = MAX_SIZE := by
      simp only [List.length_reverse, List.length_take, List.length_drop, h]
      rw [max_size_val, single_steps_val]
      omega
    omega
  split
  · exact eraseSecond_length_lt _ hlen
  · rename_i hcond
    push_neg at hcond
    have := hcond.2
    omega

/-- `compressStates` on a full store leaves the newest `SINGLE_STEPS`
entries exactly as they were. -/
lemma compress_tail60 (s : List RewindState) (h : s.length = MAX_SIZE) :
    (compressStates s).reverse.take SINGLE_STEPS = s.reverse.take SINGLE_STEPS := by
  simp only [compressStates, single_steps_val]
  have hout : ((s.reverse.take 60).reverse).length = 60 := by
    simp only [List.length_reverse, List.length_take, h, max_size_val]
    omega
  have hdrop : (s.reverse.drop 60).length = 52 := by
    simp only [List.length_drop, List.length_reverse, h, max_size_val]
  have hscan := scan_tail60 (s.reverse.drop 60) (s.reverse.take 60).reverse 0 0
    (by omega) (by omega)
  have h62 : 62 ≤ (compressScan (s.reverse.take 60).reverse
      (s.reverse.drop 60) 0 0).1.length := by
    have hm := scan_min62 (s.reverse.drop 60) (s.reverse.take 60).reverse 0 0
      (by omega)
    rw [hout, hdrop] at hm
    omega
  split
  · rw [eraseSecond_tail60 _ h62, hscan, List.reverse_reverse, List.take_take]
    norm_num
  · rw [hscan, List.reverse_reverse, List.take_take]
    norm_num

/-! ## Claim C3: compaction bounds and recent-window stability -/

/-- C3 (counterexample): filling the store to `MAX_SIZE` with uniform
60-cycle spacing and performing one more successful `addState` leaves
the store at exactly `MAX_SIZE` entries (compaction frees one slot, the
append fills it back), not strictly below `MAX_SIZE` as the claim
states. -/
theorem c3_counterexample :
    (addState ⟨uniformStore MAX_SIZE, MAX_SIZE⟩ true true [] 6780 113).1.stateList.length
      = MAX_SIZE ∧
    ¬ (addState ⟨uniformStore MAX_SIZE, MAX_SIZE⟩ true true [] 6780 113).1.stateList.length
      < MAX_SIZE := by
  refine ⟨by decide, by decide⟩

/-- C3 (amended): `compressStates` on a store of `MAX_SIZE` entries
leaves its own result strictly below `MAX_SIZE` and keeps the newest
`SINGLE_STEPS` entries bit-identical; the subsequent append inside
`addState` then brings the store back to exactly `MAX_SIZE` (not
strictly below it). -/
theorem c3_compress_bounds (store : List RewindState)
    (h : store.length = MAX_SIZE) :
    (compressStates store).length < MAX_SIZE ∧
    (compressStates store).reverse.take SINGLE_STEPS =
      store.reverse.take SINGLE_STEPS :=
  ⟨compress_length_lt store h, compress_tail60 store h⟩

/-- Witness for C3 at the uniformly spaced full store of Scenario C. -/
theorem c3_compress_bounds_witness :
    (uniformStore MAX_SIZE).length = MAX_SIZE ∧
    ((compressStates (uniformStore MAX_SIZE)).length < MAX_SIZE ∧
     (compressStates (uniformStore MAX_SIZE)).reverse.take SINGLE_STEPS =
       (uniformStore MAX_SIZE).reverse.take SINGLE_STEPS) :=
  ⟨by decide, c3_compress_bounds (uniformStore MAX_SIZE) (by decide)⟩

/-! ## Claim C6: run detection and eviction in the scan -/

/-- C6 (counterexample): on the full uniformly spaced store, the scan's
run counter reaches `MERGE_COUNT` (it ends at 52) and yet the scan
evicts nothing at all — its output is the whole store; the only eviction
is the final fallback removal of the second-oldest entry.  This refutes
the claim that an eviction happens whenever the run length reaches
`MERGE_COUNT` and that a long uniform run yields repeated evictions. -/
theorem c6_counterexample :
    (compressScan ((uniformStore MAX_SIZE).reverse.take SINGLE_STEPS).reverse
        ((uniformStore MAX_SIZE).reverse.drop SINGLE_STEPS) 0 0).1
      = uniformStore MAX_SIZE ∧
    MERGE_COUNT ≤ (compressScan ((uniformStore MAX_SIZE).reverse.take SINGLE_STEPS).reverse
        ((uniformStore MAX_SIZE).reverse.drop SINGLE_STEPS) 0 0).2 ∧
    compressStates (uniformStore MAX_SIZE) = eraseSecond (uniformStore MAX_SIZE) := by
  refine ⟨by decide, by decide, by decide⟩

/-- C6 (amended): while consecutive adjacent pairs share the same
cycle-step, the scan only increments its run counter and evicts nothing,
however long the run; an entry (the second element of the passed
region, i.e. the second-oldest entry of the run) is evicted only when a
pair with a *different* step is encountered while the completed run's
counter is at least `MERGE_COUNT`, and the counter then continues from
2. -/
theorem c6_run_eviction :
    (∀ (rest : List RewindState) (prev : RewindState)
        (outT : List RewindState) (lastStep cnt : Nat),
        List.Chain (fun a b => (u64sub a.cycles b.cycles) % 2 ^ 32 = lastStep)
          prev rest →
        compressScan (prev :: outT) rest lastStep cnt =
          (rest.reverse ++ prev :: outT, cnt + rest.length)) ∧
    (∀ (prev : RewindState) (outT : List RewindState) (x : RewindState)
        (rest : List RewindState) (lastStep cnt : Nat),
        MERGE_COUNT ≤ cnt →
        (u64sub prev.cycles x.cycles) % 2 ^ 32 ≠ lastStep →
        compressScan (prev :: outT) (x :: rest) lastStep cnt =
          compressScan (x :: prev :: outT.tail) rest
            ((u64sub prev.cycles x.cycles) % 2 ^ 32) 2) := by
  constructor
  · intro rest
    induction rest with
    | nil =>
      intro prev outT ls cnt _
      simp [compressScan]
    | cons x rest ih =>
      intro prev outT ls cnt hch
      cases hch with
      | cons hstep htail =>
        simp only [compressScan]
        rw [if_pos hstep]
        rw [ih x (prev :: outT) ls (cnt + 1) htail]
        rw [List.reverse_cons x rest, List.append_assoc, List.singleton_append,
          List.length_cons]
        congr 1
        omega
  · intro prev outT x rest ls cnt h1 h2
    simp only [compressScan]
    rw [if_neg h2, if_pos h1]

/-- Witness for C6: a uniform 60-cycle run of three pairs only counts
(no eviction), and a differing step arriving with the counter at
`MERGE_COUNT` evicts the second element of the passed region. -/
theorem c6_run_eviction_witness :
    compressScan [⟨[], 240, 0⟩, ⟨[], 300, 0⟩]
        [⟨[], 180, 0⟩, ⟨[], 120, 0⟩, ⟨[], 60, 0⟩] 60 0
      = ([⟨[], 60, 0⟩, ⟨[], 120, 0⟩, ⟨[], 180, 0⟩, ⟨[], 240, 0⟩, ⟨[], 300, 0⟩],
         0 + 3) ∧
    compressScan [⟨[], 200, 0⟩, ⟨[], 260, 0⟩, ⟨[], 320, 0⟩] [⟨[], 100, 0⟩] 60 4
      = compressScan [⟨[], 100, 0⟩, ⟨[], 200, 0⟩, ⟨[], 320, 0⟩] []
          ((u64sub 200 100) % 2 ^ 32) 2 :=
  ⟨c6_run_eviction.1 _ _ _ _ _
      (List.Chain.cons (by decide)
        (List.Chain.cons (by decide) (List.Chain.cons (by decide) List.Chain.nil))),
    c6_run_eviction.2 _ _ _ _ _ _ (by decide) (by decide)⟩

/-! ## Claim C4: the capacity invariant -/

/-- One `addState` keeps the store within `MAX_SIZE`. -/
lemma addState_length (m : RewindManager) (o1 o2 : Bool) (p : List Nat)
    (c f : Nat) (h : m.stateList.length ≤ MAX_SIZE) :
    (addState m o1 o2 p c f).1.stateList.length ≤ MAX_SIZE := by
  simp only [addState]
  split
  · simp only [List.length_append, List.length_cons, List.length_nil]
    split
    · rename_i hfull
      have := compress_length_lt _ hfull
      omega
    · rename_i hne
      have hle : (m.stateList.take m.currentPos).length ≤ MAX_SIZE := by
        simp only [List.length_take]
        omega
      omega
  · exact h

/-- Every operation keeps the store within `MAX_SIZE`. -/
lemma applyOp_length (s : EmuSystem) (op : Op)
    (h : s.mgr.stateList.length ≤ MAX_SIZE) :
    (applyOp s op).mgr.stateList.length ≤ MAX_SIZE := by
  cases op with
  | advance dc df => exact h
  | add o1 o2 p => exact addState_length s.mgr o1 o2 p s.clock s.frames h
  | rewind e =>
    simp only [applyOp]
    cases hr : (rewindState s.mgr e s.clock).2.2 with
    | none =>
      show (rewindState s.mgr e s.clock).1.stateList.length ≤ MAX_SIZE
      rw [rewindState_fst]
      exact h
    | some t =>
      show (rewindState s.mgr e s.clock).1.stateList.length ≤ MAX_SIZE
      rw [rewindState_fst]
      exact h
  | unwind e =>
    show (unwindState s.mgr e).1.stateList.length ≤ MAX_SIZE
    rw [unwindState_fst]
    exact h
  | clear => exact Nat.zero_le _
  
/-- The capacity invariant is preserved by any operation sequence. -/
lemma runOps_length : ∀ (ops : List Op) (s : EmuSystem),
    s.mgr.stateList.length ≤ MAX_SIZE →
    (runOps s ops).mgr.stateList.length ≤ MAX_SIZE := by
  intro ops
  induction ops with
  | nil => intro s h; exact h
  | cons op ops ih =>
    intro s h
    show (runOps (applyOp s op) ops).mgr.stateList.length ≤ MAX_SIZE
    exact ih _ (applyOp_length s op h)

/-- C4: in every state reachable by any sequence of clock advances and
public operations from a fresh manager, the store holds at most
`MAX_SIZE` entries. -/
theorem c4_capacity (c f : Nat) (ops : List Op) :
    (runOps (initSystem c f) ops).mgr.stateList.length ≤ MAX_SIZE :=
  runOps_length ops (initSystem c f) (Nat.zero_le _)

/-! ## Claim C5: the monotonicity invariant fails after a rewind -/

/-- C5 (code bug): capture at cycle 100, run to cycle 1000000, capture,
coarse rewind (restores the snapshot at cycle 100, setting the emulated
clock back), run 50 cycles, capture again.  Because `rewindState` never
moves `myCurrentIt`, the truncation loop in `addState` removes nothing
and the store's cycle counters become `[100, 1000000, 150]` — not
strictly increasing, contradicting the claimed invariant. -/
theorem c5_monotonicity_violation :
    (runOps (initSystem 100 0) opsRewindCapture).mgr.stateList.map (·.cycles)
      = [100, 1000000, 150] ∧
    ¬ List.Chain' (· < ·)
        ((runOps (initSystem 100 0) opsRewindCapture).mgr.stateList.map (·.cycles)) := by
  have h : (runOps (initSystem 100 0) opsRewindCapture).mgr.stateList.map (·.cycles)
      = [100, 1000000, 150] := by decide
  refine ⟨h, ?_⟩
  rw [h]
  intro hch
  simp only [List.chain'_cons] at hch
  obtain ⟨-, h2, -⟩ := hch
  omega

/-! ## Claims C7 and C8: the message formatter -/

/-- C7 (code bug): the first two unit choices behave as claimed, but a
backward delta of `76 * 262 * 5` cycles (five frames) is formatted as
"Rewind 0 frame(s)": the magnitude printed in the frame branch is
`diff / 76 / 262 / 60` — one division by 60 too many — not the claimed
5 frames.  (The second and minute branches are off by the same extra
factor of 60.) -/
theorem c7_message_units :
    getMessage 50 262 0 = "Rewind 50 cycle(s)" ∧
    getMessage 152 262 0 = "Rewind 2 scanline(s)" ∧
    getMessage (76 * 262 * 5) 262 0 = "Rewind 0 frame(s)" := by
  refine ⟨by decide, by decide, by decide⟩

/-- C8 (code bug): with the present at cycle 100 and the target snapshot
at cycle 200 (a forward delta), the message still begins with "Rewind":
`diff` is unsigned, the difference wraps to `2^64 - 100`, the dead
`diff < 0` branch never fires, and the wrapped value lands in the
minutes branch. -/
theorem c8_direction_word :
    getMessage 100 262 200 = "Rewind 4288951031 minute(s)" ∧
    (getMessage 100 262 200).toList.take 7 = "Rewind ".toList := by
  refine ⟨by decide, by decide⟩

/-! ## Claim C9: failed capture performs no mutation -/

/-- C9: if either collaborator serialization call fails, `addState`
returns `false` and leaves the manager — store and cursor — exactly as
it was; no partial snapshot is inserted. -/
theorem c9_addstate_failure (m : RewindManager) (o1 o2 : Bool)
    (p : List Nat) (c f : Nat) (h : (o1 && o2) = false) :
    addState m o1 o2 p c f = (m, false) := by
  simp [addState, h]

/-- Witness for C9 at a concrete failing display save. -/
theorem c9_addstate_failure_witness :
    ((true && false) = false) ∧
    addState ⟨[], 0⟩ true false [] 5 6 = (⟨[], 0⟩, false) :=
  ⟨rfl, c9_addstate_failure ⟨[], 0⟩ true false [] 5 6 rfl⟩

/-! ## Claim C10: the cursor always sits at the tail -/

/-- A successful `addState` puts the cursor at the new tail; a failed
one leaves manager untouched. -/
lemma addState_cursor (m : RewindManager) (o1 o2 : Bool) (p : List Nat)
    (c f : Nat) (h : m.currentPos = m.stateList.length) :
    (addState m o1 o2 p c f).1.currentPos =
      (addState m o1 o2 p c f).1.stateList.length := by
  simp only [addState]
  split
  · rfl
  · exact h

/-- Every operation preserves `currentPos = length`. -/
lemma applyOp_cursor (s : EmuSystem) (op : Op)
    (h : s.mgr.currentPos = s.mgr.stateList.length) :
    (applyOp s op).mgr.currentPos = (applyOp s op).mgr.stateList.length := by
  cases op with
  | advance dc df => exact h
  | add o1 o2 p => exact addState_cursor s.mgr o1 o2 p s.clock s.frames h
  | rewind e =>
    simp only [applyOp]
    cases hr : (rewindState s.mgr e s.clock).2.2 with
    | none =>
      show (rewindState s.mgr e s.clock).1.currentPos =
        (rewindState s.mgr e s.clock).1.stateList.length
      rw [rewindState_fst]
      exact h
    | some t =>
      show (rewindState s.mgr e s.clock).1.currentPos =
        (rewindState s.mgr e s.clock).1.stateList.length
      rw [rewindState_fst]
      exact h
  | unwind e =>
    show (unwindState s.mgr e).1.currentPos = (unwindState s.mgr e).1.stateList.length
    rw [unwindState_fst]
    exact h
  | clear => rfl

/-- The cursor invariant is preserved by any operation sequence. -/
lemma runOps_cursor : ∀ (ops : List Op) (s : EmuSystem),
    s.mgr.currentPos = s.mgr.stateList.length →
    (runOps s ops).mgr.currentPos = (runOps s ops).mgr.stateList.length := by
  intro ops
  induction ops with
  | nil => intro s h; exact h
  | cons op ops ih =>
    intro s h
    show (runOps (applyOp s op) ops).mgr.currentPos =
      (runOps (applyOp s op) ops).mgr.stateList.length
    exact ih _ (applyOp_cursor s op h)

/-- C10: after any sequence of operations from a fresh manager the
cursor equals the tail position (`myCurrentIt = end()`), and therefore
the future-discarding truncation loop at the start of `addState`
(modelled by `take currentPos`) removes no entries. -/
theorem c10_cursor_at_end (c f : Nat) (ops : List Op) :
    (runOps (initSystem c f) ops).mgr.currentPos =
      (runOps (initSystem c f) ops).mgr.stateList.length ∧
    (runOps (initSystem c f) ops).mgr.stateList.take
        ((runOps (initSystem c f) ops).mgr.currentPos) =
      (runOps (initSystem c f) ops).mgr.stateList := by
  have h := runOps_cursor ops (initSystem c f) rfl
  exact ⟨h, by rw [h]; exact List.take_length _⟩
